import Mathlib

/-!
Verification development for the BadgerDB-style buffer pool manager
(`src/buffer.cpp`, namespace `badgerdb`).

The manager's own code (`BufMgr::allocBuf`, `readPage`, `unPinPage`,
`allocPage`, `flushFile`, `disposePage`) is translated directly from
`buffer.cpp`.  The pieces it uses that live in headers / collaborating
files not present in the repository snapshot — `BufDesc::Set`,
`BufDesc::clear`, the hash table `BufHashTbl`, and the `File` page
interface — are modelled from the specification (§4.1, §4.2, §6).

Machine integers (`FrameId`, `PageId`, `pinCnt : std::uint32_t`, the
loop counter of `allocBuf`) are modelled as `Nat`; none of the verified
claims depends on 32-bit wrap-around.
-/

/-- Page content: an embedded page number (`page_number()`) plus opaque
data, modelled as a single `Nat`.  Modelled from the spec §3/§6
("opaque bytes plus an embedded page number"). -/
structure Page where
  num : Nat
  data : Nat
deriving DecidableEq

/-- Default-constructed `Page` (invalid page number 0, no data). -/
def pdfl : Page := ⟨0, 0⟩

/-- Frame descriptor, one per frame (`BufDesc` of `buffer.h`):
`valid` = occupied, `refbit` = referenced, `dirty` = modified,
`pinCnt` = pin count, `(file, pageNo)` = owner. -/
structure BufDesc where
  file : Nat
  pageNo : Nat
  valid : Bool
  refbit : Bool
  dirty : Bool
  pinCnt : Nat
deriving DecidableEq

/-- Modelled from the spec §4.1: `BufDesc::clear` resets all fields to
the invalid state (`occupied=false ⇒ pinCount=0 ∧ modified=false ∧
referenced=false`, §3 invariant 1). -/
def clearDesc : BufDesc :=
  { file := 0, pageNo := 0, valid := false, refbit := false, dirty := false, pinCnt := 0 }

/-- Default descriptor used for out-of-range reads. -/
def dfl : BufDesc := clearDesc

/-- Modelled from the spec §4.1: `BufDesc::Set(file, pageNo)` marks the
frame occupied with `referenced=true`, `pinCount=1`, `modified=false`,
recording the owner. -/
def setDesc (f p : Nat) : BufDesc :=
  { file := f, pageNo := p, valid := true, refbit := true, dirty := false, pinCnt := 1 }

/-- Failure outcomes of the manager, one per exception class of the
source (`BufferExceededException`, `PageNotPinnedException`,
`PagePinnedException`, `BadBufferException`, `HashNotFoundException`,
`HashAlreadyPresentException`, `InvalidPageException`). -/
inductive BufError where
  | bufferExceeded
  | pageNotPinned
  | pagePinned
  | badBuffer
  | hashNotFound
  | hashAlreadyPresent
  | invalidPage
deriving DecidableEq

/-- One hash-table / disk entry: a `(fileIdentity, pageNumber)` key with
a `Nat` value (frame index for the page table, page data for the disk). -/
abbrev Entry := (Nat × Nat) × Nat

/-- List indexing with an explicit default (`vector[i]` of the source). -/
def nth (d : α) : List α → Nat → α
  | [], _ => d
  | a :: _, 0 => a
  | _ :: l, n + 1 => nth d l n

/-- In-place update of one list cell (`vector[i] = a` of the source). -/
def setN : List α → Nat → α → List α
  | [], _, _ => []
  | _ :: l, 0, b => b :: l
  | a :: l, n + 1, b => a :: setN l n b

/-- Association lookup by key (first match). -/
def alook (k : Nat × Nat) : List Entry → Option Nat
  | [] => none
  | e :: t => if e.1 = k then some e.2 else alook k t

/-- Association removal of the first entry with the given key; `none`
when the key is absent. -/
def aerase (k : Nat × Nat) : List Entry → Option (List Entry)
  | [] => none
  | e :: t => if e.1 = k then some t else Option.map (fun r => e :: r) (aerase k t)

/-- Modelled from the spec §4.2: `BufHashTbl::lookup`, failing (with
NotFound, here `none`) when no entry exists. -/
def htLookup (f p : Nat) (t : List Entry) : Option Nat := alook (f, p) t

/-- Modelled from the spec §4.2: `BufHashTbl::remove`, failing (with
NotFound, here `none`) when the key is absent. -/
def htRemove (f p : Nat) (t : List Entry) : Option (List Entry) := aerase (f, p) t

/-- Modelled from the spec §4.2: `BufHashTbl::insert`, rejected (`none`,
the HashAlreadyPresent failure) if the key already exists. -/
def htInsert (f p fr : Nat) (t : List Entry) : Option (List Entry) :=
  match alook (f, p) t with
  | some _ => none
  | none => some (((f, p), fr) :: t)

/-- The whole mutable state: the `BufMgr` fields (`numBufs`,
`clockHand`, `bufDescTable`, `bufPool`, `hashTable`) together with the
external world it acts on — the on-disk pages of every file (`disk`),
each file's next fresh page number (`nextPg`), and the observable log
of `writePage` calls made through the file interface (`writes`). -/
structure State where
  numBufs : Nat
  clockHand : Nat
  descs : List BufDesc
  pool : List Page
  table : List Entry
  disk : List Entry
  nextPg : List (Nat × Nat)
  writes : List (Nat × Page)
deriving DecidableEq

/-- Per-file next fresh page number (default 1). -/
def nlook (f : Nat) : List (Nat × Nat) → Nat
  | [] => 1
  | e :: t => if e.1 = f then e.2 else nlook f t

/-- Record a file's next fresh page number. -/
def nset (f v : Nat) : List (Nat × Nat) → List (Nat × Nat)
  | [] => [(f, v)]
  | e :: t => if e.1 = f then (f, v) :: t else e :: nset f v t

/-- Modelled from the spec §6: `File::writePage(content)` persists the
content at its embedded page number in the file it is invoked on, and
is observed on the write log. -/
def writePageS (f : Nat) (pg : Page) (s : State) : State :=
  { s with
    disk := ((f, pg.num), pg.data) :: ((aerase (f, pg.num) s.disk).getD s.disk)
    writes := s.writes ++ [(f, pg)] }

/-- Modelled from the spec §6: `File::readPage(pageNo)` returns the
stored content (embedded number `pageNo`), failing if the page does not
exist in the file. -/
def fileReadPage (f p : Nat) (s : State) : Option Page :=
  match alook (f, p) s.disk with
  | some d => some ⟨p, d⟩
  | none => none

/-- Modelled from the spec §6: `File::allocatePage()` creates a new
page in the file carrying a freshly assigned page number. -/
def fileAllocatePage (f : Nat) (s : State) : Page × State :=
  let n := nlook f s.nextPg
  (⟨n, 0⟩,
   { s with
     disk := ((f, n), 0) :: s.disk
     nextPg := nset f (n + 1) s.nextPg })

/-- Modelled from the spec §6: `File::deletePage(pageNo)` removes a
page from the file; safe even if absent. -/
def fileDeletePage (f p : Nat) (s : State) : State :=
  { s with disk := (aerase (f, p) s.disk).getD s.disk }

/-- `BufMgr::BufMgr(bufs)`: all descriptors invalid, `clockHand = bufs - 1`
(one position behind frame 0).  The external `disk` is a parameter:
files exist independently of the manager. -/
def init (bufs : Nat) (disk : List Entry) : State :=
  { numBufs := bufs
    clockHand := bufs - 1
    descs := List.replicate bufs clearDesc
    pool := List.replicate bufs pdfl
    table := []
    disk := disk
    nextPg := []
    writes := [] }

/-- `BufMgr::advanceClock()`: `clockHand = (clockHand + 1) % numBufs`. -/
def advanceClock (s : State) : State :=
  { s with clockHand := (s.clockHand + 1) % s.numBufs }

/-- The loop of `BufMgr::allocBuf` (buffer.cpp lines 45–77).  `fuel` is
the number of inspections still allowed: the source counts `count` from
1 and throws BufferExceeded when `count > numBufs*2`, i.e. it performs
at most `2*numBufs` inspections; `fuel = 2*numBufs - (count-1)`.  The
third component of the result is the number of inspections performed.
Per source order, a dirty victim is written back (to `desc.file`), the
descriptor is cleared, and only then is the hash-table entry removed —
an absent entry there surfaces HashNotFound uncaught. -/
def allocBufGo (s : State) : Nat → (Except BufError Nat) × State × Nat
  | 0 => (.error .bufferExceeded, s, 0)
  | fuel + 1 =>
    let s1 := advanceClock s
    let desc := nth dfl s1.descs s1.clockHand
    if desc.valid then
      if desc.refbit then
        let s2 := { s1 with descs := setN s1.descs s1.clockHand { desc with refbit := false } }
        let r := allocBufGo s2 fuel
        (r.1, r.2.1, r.2.2 + 1)
      else
        if desc.pinCnt = 0 then
          let fileV := desc.file
          let pageV := nth pdfl s1.pool s1.clockHand
          let s2 := if desc.dirty then writePageS fileV pageV s1 else s1
          let s3 := { s2 with descs := setN s2.descs s1.clockHand clearDesc }
          match htRemove fileV pageV.num s3.table with
          | some t => (.ok s1.clockHand, { s3 with table := t }, 1)
          | none => (.error .hashNotFound, s3, 1)
        else
          let r := allocBufGo s1 fuel
          (r.1, r.2.1, r.2.2 + 1)
    else
      (.ok s1.clockHand, s1, 1)

/-- `BufMgr::allocBuf(frame)`: the bounded clock sweep. -/
def allocBuf (s : State) : (Except BufError Nat) × State :=
  let r := allocBufGo s (2 * s.numBufs)
  (r.1, r.2.1)

/-- Number of frames the sweep of `allocBuf` inspects. -/
def inspCount (s : State) : Nat := (allocBufGo s (2 * s.numBufs)).2.2

/-- `BufMgr::readPage(file, pageNo, page)` (buffer.cpp lines 79–95).
On a hit: set `refbit`, increment `pinCnt`, return the cached content.
On a miss: `allocBuf`, read from the file, insert into the hash table,
`Set` the descriptor.  Returns the frame index and the page content. -/
def readPage (f p : Nat) (s : State) : (Except BufError (Nat × Page)) × State :=
  match htLookup f p s.table with
  | some frameNo =>
    let desc := nth dfl s.descs frameNo
    let s1 := { s with descs := setN s.descs frameNo { desc with refbit := true, pinCnt := desc.pinCnt + 1 } }
    (.ok (frameNo, nth pdfl s1.pool frameNo), s1)
  | none =>
    match allocBuf s with
    | (.error e, s1) => (.error e, s1)
    | (.ok frameNo, s1) =>
      match fileReadPage f p s1 with
      | none => (.error .invalidPage, s1)
      | some pg =>
        let s2 := { s1 with pool := setN s1.pool frameNo pg }
        match htInsert f p frameNo s2.table with
        | none => (.error .hashAlreadyPresent, s2)
        | some t =>
          let s3 := { s2 with table := t, descs := setN s2.descs frameNo (setDesc f p) }
          (.ok (frameNo, nth pdfl s3.pool frameNo), s3)

/-- `BufMgr::unPinPage(file, pageNo, dirty)` (buffer.cpp lines 97–109).
The hash-table lookup is not guarded: an uncached key surfaces
HashNotFound.  A zero pin count raises PageNotPinned; otherwise the
dirty flag is set if requested and the pin count is decremented. -/
def unPinPage (f p : Nat) (d : Bool) (s : State) : (Except BufError Unit) × State :=
  match htLookup f p s.table with
  | none => (.error .hashNotFound, s)
  | some frameNo =>
    let desc := nth dfl s.descs frameNo
    if desc.pinCnt = 0 then
      (.error .pageNotPinned, s)
    else
      let desc1 := { desc with dirty := if d then true else desc.dirty, pinCnt := desc.pinCnt - 1 }
      (.ok (), { s with descs := setN s.descs frameNo desc1 })

/-- `BufMgr::allocPage(file, pageNo, page)` (buffer.cpp lines 111–121):
allocate a fresh page in the file, then a frame, then register it. -/
def allocPage (f : Nat) (s : State) : (Except BufError (Nat × Page)) × State :=
  let r := fileAllocatePage f s
  let newPage := r.1
  let s0 := r.2
  match allocBuf s0 with
  | (.error e, s1) => (.error e, s1)
  | (.ok frameNo, s1) =>
    let s2 := { s1 with pool := setN s1.pool frameNo newPage }
    match htInsert f newPage.num frameNo s2.table with
    | none => (.error .hashAlreadyPresent, s2)
    | some t =>
      let s3 := { s2 with table := t, descs := setN s2.descs frameNo (setDesc f newPage.num) }
      (.ok (newPage.num, newPage), s3)

/-- The loop body of `BufMgr::flushFile` (buffer.cpp lines 126–142),
iterating frames `i, i+1, …` with `rem` frames left to process.  For
each frame, in source order: PagePinned if pinned, BadBuffer if not
valid, write-back through the *parameter* file if dirty, removal of the
hash entry keyed by the *parameter* file (NotFound swallowed), clear. -/
def flushGo (f : Nat) : State → Nat → Nat → (Except BufError Unit) × State
  | s, _, 0 => (.ok (), s)
  | s, i, rem + 1 =>
    let desc := nth dfl s.descs i
    let page := nth pdfl s.pool i
    if desc.pinCnt ≠ 0 then
      (.error .pagePinned, s)
    else if ¬desc.valid then
      (.error .badBuffer, s)
    else
      let s1 := if desc.dirty then writePageS f page s else s
      let s2 :=
        match htRemove f page.num s1.table with
        | some t => { s1 with table := t }
        | none => s1
      let s3 := { s2 with descs := setN s2.descs i clearDesc }
      flushGo f s3 (i + 1) rem

/-- `BufMgr::flushFile(file)` (buffer.cpp lines 123–143). -/
def flushFile (f : Nat) (s : State) : (Except BufError Unit) × State :=
  flushGo f s 0 s.numBufs

/-- `BufMgr::disposePage(file, PageNo)` (buffer.cpp lines 145–153): if
cached, clear the descriptor and remove the entry (failures swallowed);
unconditionally delete the page from the file. -/
def disposePage (f p : Nat) (s : State) : (Except BufError Unit) × State :=
  match htLookup f p s.table with
  | some frameNo =>
    let s1 := { s with descs := setN s.descs frameNo clearDesc }
    let s2 :=
      match htRemove f p s1.table with
      | some t => { s1 with table := t }
      | none => s1
    (.ok (), fileDeletePage f p s2)
  | none => (.ok (), fileDeletePage f p s)

/-- Public operations of the manager (spec names: fetch, release,
allocate, flushFile, dispose). -/
inductive Op where
  | fetch (f p : Nat)
  | release (f p : Nat) (d : Bool)
  | alloc (f : Nat)
  | flush (f : Nat)
  | dispose (f p : Nat)

/-- Post-state of one operation (the C++ object survives a thrown
exception, so the partially-mutated state is kept on failure too). -/
def applyOp (s : State) : Op → State
  | .fetch f p => (readPage f p s).2
  | .release f p d => (unPinPage f p d s).2
  | .alloc f => (allocPage f s).2
  | .flush f => (flushFile f s).2
  | .dispose f p => (disposePage f p s).2

/-- Run a sequence of operations from a state. -/
def run (ops : List Op) (s : State) : State := ops.foldl applyOp s

/-- Structural well-formedness of a manager state: a nonempty pool and
descriptor/pool arrays of length `numBufs` (true by construction). -/
def Wf (s : State) : Prop :=
  0 < s.numBufs ∧ s.descs.length = s.numBufs ∧ s.pool.length = s.numBufs

/-- Every occupied frame's hash-table key (its file together with its
pool page's embedded number, the key `allocBuf` removes) is present in
the table — the §3 page-table/frame consistency the design assumes. -/
def goodTable (s : State) : Prop :=
  ∀ k, k < s.numBufs → (nth dfl s.descs k).valid = true →
    (htRemove (nth dfl s.descs k).file (nth pdfl s.pool k).num s.table).isSome = true

/-- The page table holds at most one entry per key. -/
def uniqKeys (t : List Entry) : Prop :=
  List.Pairwise (fun a b => a.1 ≠ b.1) t

/-- Every page-table entry's frame index is in range (true of every
table the manager itself builds, since inserts store allocBuf frames). -/
def tableWf (s : State) : Prop :=
  ∀ e ∈ s.table, e.2 < s.numBufs

/-- Pool of 2 holding pages (1,1) and (1,2), both pinned once. -/
def sC9 : State := run [.alloc 1, .alloc 1] (init 2 [])

deriving instance DecidableEq for Except

instance (s : State) : Decidable (tableWf s) := by
  unfold tableWf
  infer_instance

instance (s : State) : Decidable (Wf s) :=
  inferInstanceAs (Decidable (0 < s.numBufs ∧ s.descs.length = s.numBufs ∧ s.pool.length = s.numBufs))

instance (s : State) : Decidable (goodTable s) := by
  unfold goodTable
  infer_instance

instance (t : List Entry) : Decidable (uniqKeys t) := by
  unfold uniqKeys
  infer_instance

/-- The state after the sweep gives the frame under the clock hand a
second chance (its reference bit is cleared). -/
def stepRef (s : State) : State :=
  { s with descs := setN s.descs s.clockHand { nth dfl s.descs s.clockHand with refbit := false } }

/-- The state after the sweep has prepared the frame under the clock
hand for reuse: written it back if dirty, then cleared its descriptor
(the hash-entry removal happens after this, per source order). -/
def victimPrep (s : State) : State :=
  let s2 := if (nth dfl s.descs s.clockHand).dirty then
    writePageS (nth dfl s.descs s.clockHand).file (nth pdfl s.pool s.clockHand) s else s
  { s2 with descs := setN s2.descs s.clockHand clearDesc }

/-- Disk with four pages of file 1, for the pool-of-3 exhaustion scenario. -/
def dC4 : List Entry := [((1, 1), 0), ((1, 2), 0), ((1, 3), 0), ((1, 4), 0)]

/-- Pool of 3 after fetching three distinct pages of file 1 without
releasing any: every frame pinned. -/
def sC4 : State := run [.fetch 1 1, .fetch 1 2, .fetch 1 3] (init 3 dC4)

/-- Disk with two pages of file 1 (data 5 and 7). -/
def dC3 : List Entry := [((1, 1), 5), ((1, 2), 7)]

/-- Pool of 1 after fetching page (1,1) and releasing it modified: its
frame is an unpinned dirty eviction candidate. -/
def sC3 : State := run [.fetch 1 1, .release 1 1 true] (init 1 dC3)

/-- Operation sequence on a pool of 3 after which two occupied frames
hold the same (file, pageNumber): cache (2,1), (2,2), (1,1); unpin
(2,1) and (1,1); flushFile of file 1 removes the entry of (1,1) while
processing the frame that holds (2,1) (same page number) and then fails
with PagePinned on the pinned frame, leaving frame 2 occupied by (1,1)
with no page-table entry; re-fetching (1,1) then loads a second copy. -/
def traceC1 : List Op :=
  [.alloc 2, .alloc 2, .alloc 1, .release 2 1 false, .release 1 1 false, .flush 1, .fetch 1 1]

/-- Pool of 2 holding pages (1,1) (dirty, unpinned) and (1,2) (pinned). -/
def sC6 : State := run [.alloc 1, .alloc 1, .release 1 1 true] (init 2 [])

/-- Pool of 1 holding page (2,1) of file 2, dirty and unpinned. -/
def sC7 : State := run [.alloc 2, .release 2 1 true] (init 1 [])

/-- Pool of 2 with frame 0 occupied and pinned and frame 1 invalid. -/
def sC10 : State := run [.alloc 1] (init 2 [])

/-- One iteration of the `flushFile` loop on frame `i` when the frame
is unpinned and occupied: write-back through the parameter file if
dirty, removal of the hash entry keyed by the parameter file (NotFound
swallowed), then clearing of the descriptor — in source order. -/
def flushStep (f : Nat) (s : State) (i : Nat) : State :=
  let page := nth pdfl s.pool i
  let s1 := if (nth dfl s.descs i).dirty then writePageS f page s else s
  let s2 :=
    match htRemove f page.num s1.table with
    | some t => { s1 with table := t }
    | none => s1
  { s2 with descs := setN s2.descs i clearDesc }

/-! ### Basic list lemmas -/

theorem length_setN (l : List α) (i : Nat) (a : α) : (setN l i a).length = l.length := by
  induction l generalizing i with
  | nil => rfl
  | cons x xs ih => cases i with
    | zero => rfl
    | succ n => simpa [setN] using ih n

theorem nth_setN_self (l : List α) (i : Nat) (a d : α) (h : i < l.length) :
    nth d (setN l i a) i = a := by
  induction l generalizing i with
  | nil => simp at h
  | cons x xs ih => cases i with
    | zero => rfl
    | succ n => exact ih n (by simpa using h)

theorem nth_setN_ne (l : List α) (i j : Nat) (a d : α) (h : i ≠ j) :
    nth d (setN l i a) j = nth d l j := by
  induction l generalizing i j with
  | nil => rfl
  | cons x xs ih => cases i with
    | zero => cases j with
      | zero => exact absurd rfl h
      | succ m => rfl
    | succ n => cases j with
      | zero => rfl
      | succ m => exact ih n m (by omega)

theorem nth_ge (l : List α) (i : Nat) (d : α) (h : l.length ≤ i) : nth d l i = d := by
  induction l generalizing i with
  | nil => rfl
  | cons x xs ih => cases i with
    | zero => simp at h
    | succ n => exact ih n (by simpa using h)

/-! ### Association-list lemmas -/

theorem aerase_none_iff (k : Nat × Nat) (t : List Entry) :
    aerase k t = none ↔ alook k t = none := by
  induction t with
  | nil => simp [aerase, alook]
  | cons e t ih =>
    by_cases h : e.1 = k
    · simp [aerase, alook, h]
    · simp [aerase, alook, h, Option.map_eq_none', ih]

theorem aerase_sublist (k : Nat × Nat) (t t' : List Entry) (h : aerase k t = some t') :
    t'.Sublist t := by
  induction t generalizing t' with
  | nil => simp [aerase] at h
  | cons e t ih =>
    by_cases he : e.1 = k
    · simp only [aerase, if_pos he] at h
      obtain rfl := Option.some.inj h
      exact (List.Sublist.refl _).cons e
    · simp only [aerase, if_neg he] at h
      cases hr : aerase k t with
      | none => simp [hr] at h
      | some r =>
        simp only [hr, Option.map_some'] at h
        obtain rfl := Option.some.inj h
        exact (ih r hr).cons₂ e

theorem alook_none_sublist (k : Nat × Nat) (t t' : List Entry) (hs : t'.Sublist t)
    (h : alook k t = none) : alook k t' = none := by
  induction hs with
  | slnil => rfl
  | cons e hs ih =>
    by_cases he : e.1 = k
    · simp [alook, he] at h
    · simp only [alook, if_neg he] at h
      exact ih h
  | cons₂ e hs ih =>
    by_cases he : e.1 = k
    · simp [alook, he] at h
    · simp only [alook, if_neg he] at h ⊢
      exact ih h

theorem alook_none_of_keys (k : Nat × Nat) (t : List Entry)
    (h : ∀ x ∈ t, x.1 ≠ k) : alook k t = none := by
  induction t with
  | nil => rfl
  | cons e t ih =>
    simp only [alook, if_neg (h e (List.mem_cons_self e t))]
    exact ih fun x hx => h x (List.mem_cons_of_mem e hx)

theorem aerase_uniq_alook_none (k : Nat × Nat) (t t' : List Entry)
    (hu : uniqKeys t) (h : aerase k t = some t') : alook k t' = none := by
  induction t generalizing t' with
  | nil => simp [aerase] at h
  | cons e t ih =>
    rcases List.pairwise_cons.mp hu with ⟨he1, hu'⟩
    by_cases he : e.1 = k
    · simp only [aerase, if_pos he] at h
      obtain rfl := Option.some.inj h
      exact alook_none_of_keys k _ fun x hx => he ▸ Ne.symm (he1 x hx)
    · simp only [aerase, if_neg he] at h
      cases hr : aerase k t with
      | none => simp [hr] at h
      | some r =>
        simp only [hr, Option.map_some'] at h
        obtain rfl := Option.some.inj h
        simp only [alook, if_neg he]
        exact ih r hu' hr

theorem uniq_sublist (t t' : List Entry) (hs : t'.Sublist t) (hu : uniqKeys t) :
    uniqKeys t' := List.Pairwise.sublist hs hu

theorem aerase_mem_preserved (k : Nat × Nat) (t t' : List Entry) (e : Entry)
    (h : aerase k t = some t') (he : e ∈ t) (hk : e.1 ≠ k) : e ∈ t' := by
  induction t generalizing t' with
  | nil => simp at he
  | cons x t ih =>
    by_cases hx : x.1 = k
    · simp only [aerase, if_pos hx] at h
      cases h
      rcases List.mem_cons.mp he with rfl | hmem
      · exact absurd hx hk
      · exact hmem
    · simp only [aerase, if_neg hx] at h
      cases hr : aerase k t with
      | none => simp [hr] at h
      | some r =>
        simp only [hr, Option.map_some'] at h
        cases h
        rcases List.mem_cons.mp he with rfl | hmem
        · exact List.mem_cons_self e r
        · exact List.mem_cons_of_mem x (ih r hr hmem)


theorem setN_ge (l : List α) (i : Nat) (a : α) (h : l.length ≤ i) : setN l i a = l := by
  induction l generalizing i with
  | nil => rfl
  | cons x xs ih => cases i with
    | zero => simp at h
    | succ n => simpa [setN] using ih n (by simpa using h)

/-! ### Unfolding lemmas for the clock sweep -/

theorem allocBufGo_zero (s : State) : allocBufGo s 0 = (.error .bufferExceeded, s, 0) := rfl

theorem allocBufGo_succ_invalid (s : State) (fuel : Nat)
    (hv : (nth dfl (advanceClock s).descs (advanceClock s).clockHand).valid = false) :
    allocBufGo s (fuel + 1) = (.ok (advanceClock s).clockHand, advanceClock s, 1) := by
  simp only [allocBufGo, hv]
  simp

theorem allocBufGo_succ_refbit (s : State) (fuel : Nat)
    (hv : (nth dfl (advanceClock s).descs (advanceClock s).clockHand).valid = true)
    (hr : (nth dfl (advanceClock s).descs (advanceClock s).clockHand).refbit = true) :
    allocBufGo s (fuel + 1) =
      ((allocBufGo (stepRef (advanceClock s)) fuel).1,
       (allocBufGo (stepRef (advanceClock s)) fuel).2.1,
       (allocBufGo (stepRef (advanceClock s)) fuel).2.2 + 1) := by
  simp only [allocBufGo, hv, hr, stepRef]
  simp

theorem allocBufGo_succ_pinned (s : State) (fuel : Nat)
    (hv : (nth dfl (advanceClock s).descs (advanceClock s).clockHand).valid = true)
    (hr : (nth dfl (advanceClock s).descs (advanceClock s).clockHand).refbit = false)
    (hp : (nth dfl (advanceClock s).descs (advanceClock s).clockHand).pinCnt ≠ 0) :
    allocBufGo s (fuel + 1) =
      ((allocBufGo (advanceClock s) fuel).1,
       (allocBufGo (advanceClock s) fuel).2.1,
       (allocBufGo (advanceClock s) fuel).2.2 + 1) := by
  simp only [allocBufGo, hv, hr, if_neg hp]
  simp

theorem allocBufGo_succ_victim (s : State) (fuel : Nat)
    (hv : (nth dfl (advanceClock s).descs (advanceClock s).clockHand).valid = true)
    (hr : (nth dfl (advanceClock s).descs (advanceClock s).clockHand).refbit = false)
    (hp : (nth dfl (advanceClock s).descs (advanceClock s).clockHand).pinCnt = 0) :
    allocBufGo s (fuel + 1) =
      (match htRemove (nth dfl (advanceClock s).descs (advanceClock s).clockHand).file
          (nth pdfl (advanceClock s).pool (advanceClock s).clockHand).num
          (victimPrep (advanceClock s)).table with
       | some t => (.ok (advanceClock s).clockHand, { victimPrep (advanceClock s) with table := t }, 1)
       | none => (.error .hashNotFound, victimPrep (advanceClock s), 1)) := by
  simp only [allocBufGo, hv, hr, if_pos hp, victimPrep]
  simp

theorem stepRef_fields (s : State) (k : Nat) :
    (nth dfl (stepRef s).descs k).valid = (nth dfl s.descs k).valid ∧
    (nth dfl (stepRef s).descs k).pinCnt = (nth dfl s.descs k).pinCnt ∧
    (nth dfl (stepRef s).descs k).dirty = (nth dfl s.descs k).dirty ∧
    (nth dfl (stepRef s).descs k).file = (nth dfl s.descs k).file ∧
    (nth dfl (stepRef s).descs k).pageNo = (nth dfl s.descs k).pageNo := by
  simp only [stepRef]
  by_cases h : s.clockHand = k
  · subst h
    by_cases hl : s.clockHand < s.descs.length
    · rw [nth_setN_self s.descs s.clockHand _ dfl hl]
      exact ⟨rfl, rfl, rfl, rfl, rfl⟩
    · rw [setN_ge s.descs s.clockHand _ (Nat.le_of_not_lt hl)]
      exact ⟨rfl, rfl, rfl, rfl, rfl⟩
  · rw [nth_setN_ne s.descs s.clockHand k _ dfl h]
    exact ⟨rfl, rfl, rfl, rfl, rfl⟩

theorem stepRef_numBufs (s : State) : (stepRef s).numBufs = s.numBufs := rfl

theorem stepRef_pool (s : State) : (stepRef s).pool = s.pool := rfl

theorem stepRef_table (s : State) : (stepRef s).table = s.table := rfl

theorem stepRef_writes (s : State) : (stepRef s).writes = s.writes := rfl

theorem stepRef_descs_length (s : State) : (stepRef s).descs.length = s.descs.length := by
  show (setN s.descs s.clockHand _).length = _
  exact length_setN s.descs s.clockHand _

theorem victimPrep_writes (s : State) :
    (victimPrep s).writes =
      if (nth dfl s.descs s.clockHand).dirty then
        s.writes ++ [((nth dfl s.descs s.clockHand).file, nth pdfl s.pool s.clockHand)]
      else s.writes := by
  by_cases h : (nth dfl s.descs s.clockHand).dirty = true
  · simp [victimPrep, writePageS, h]
  · rw [Bool.not_eq_true] at h
    simp [victimPrep, writePageS, h]

theorem victimPrep_table (s : State) : (victimPrep s).table = s.table := by
  by_cases h : (nth dfl s.descs s.clockHand).dirty = true
  · simp [victimPrep, writePageS, h]
  · rw [Bool.not_eq_true] at h
    simp [victimPrep, writePageS, h]

theorem victimPrep_pool (s : State) : (victimPrep s).pool = s.pool := by
  by_cases h : (nth dfl s.descs s.clockHand).dirty = true
  · simp [victimPrep, writePageS, h]
  · rw [Bool.not_eq_true] at h
    simp [victimPrep, writePageS, h]

theorem victimPrep_numBufs (s : State) : (victimPrep s).numBufs = s.numBufs := by
  by_cases h : (nth dfl s.descs s.clockHand).dirty = true
  · simp [victimPrep, writePageS, h]
  · rw [Bool.not_eq_true] at h
    simp [victimPrep, writePageS, h]

theorem victimPrep_descs_length (s : State) : (victimPrep s).descs.length = s.descs.length := by
  by_cases h : (nth dfl s.descs s.clockHand).dirty = true
  · simp [victimPrep, writePageS, h, length_setN]
  · rw [Bool.not_eq_true] at h
    simp [victimPrep, writePageS, h, length_setN]

theorem advanceClock_descs (s : State) : (advanceClock s).descs = s.descs := rfl

theorem advanceClock_pool (s : State) : (advanceClock s).pool = s.pool := rfl

theorem advanceClock_table (s : State) : (advanceClock s).table = s.table := rfl

theorem advanceClock_writes (s : State) : (advanceClock s).writes = s.writes := rfl

theorem advanceClock_numBufs (s : State) : (advanceClock s).numBufs = s.numBufs := rfl

theorem advanceClock_clockHand (s : State) :
    (advanceClock s).clockHand = (s.clockHand + 1) % s.numBufs := rfl

/-- Master property of the bounded clock sweep: the inspection count is
at most the allowance and exhausts it exactly on BufferExceeded; a
returned victim frame is in range and was, in the state the sweep
started from, either invalid or unpinned; and a valid dirty victim's
content is written back (tagged with its owning file) before the sweep
returns. -/
theorem allocBufGo_master (fuel : Nat) : ∀ s : State,
    (allocBufGo s fuel).2.2 ≤ fuel ∧
    ((allocBufGo s fuel).1 = .error .bufferExceeded → (allocBufGo s fuel).2.2 = fuel) ∧
    (∀ fr, (allocBufGo s fuel).1 = .ok fr →
      (0 < s.numBufs → fr < s.numBufs) ∧
      ((nth dfl s.descs fr).valid = false ∨ (nth dfl s.descs fr).pinCnt = 0) ∧
      ((nth dfl s.descs fr).valid = true → (nth dfl s.descs fr).dirty = true →
        (allocBufGo s fuel).2.1.writes =
          s.writes ++ [((nth dfl s.descs fr).file, nth pdfl s.pool fr)])) := by
  induction fuel with
  | zero =>
    intro s
    refine ⟨Nat.le_refl 0, fun _ => rfl, fun fr h => ?_⟩
    rw [allocBufGo_zero] at h
    exact Except.noConfusion h
  | succ n ih =>
    intro s
    by_cases hv : (nth dfl (advanceClock s).descs (advanceClock s).clockHand).valid = true
    · by_cases hr : (nth dfl (advanceClock s).descs (advanceClock s).clockHand).refbit = true
      · have heq := allocBufGo_succ_refbit s n hv hr
        rcases ih (stepRef (advanceClock s)) with ⟨h1, h2, h3⟩
        refine ⟨?_, ?_, ?_⟩
        · rw [heq]; dsimp only; omega
        · rw [heq]; dsimp only; intro he; rw [h2 he]
        · intro fr hok
          rw [heq] at hok; dsimp only at hok
          rcases h3 fr hok with ⟨hlt, hup, hwr⟩
          rcases stepRef_fields (advanceClock s) fr with ⟨e1, e2, e3, e4, e5⟩
          refine ⟨fun hn => hlt hn, ?_, ?_⟩
          · rw [e1, e2] at hup; exact hup
          · intro hva hd
            have hc := hwr (by rw [e1]; exact hva) (by rw [e3]; exact hd)
            rw [heq]; dsimp only
            rw [hc, e4]
            rfl
      · rw [Bool.not_eq_true] at hr
        by_cases hp : (nth dfl (advanceClock s).descs (advanceClock s).clockHand).pinCnt = 0
        · have heq := allocBufGo_succ_victim s n hv hr hp
          cases hrm : htRemove (nth dfl (advanceClock s).descs (advanceClock s).clockHand).file
              (nth pdfl (advanceClock s).pool (advanceClock s).clockHand).num
              (victimPrep (advanceClock s)).table with
          | some t =>
            simp only [hrm] at heq
            have hp2 := hp
            rw [advanceClock_descs] at hp2
            refine ⟨by rw [heq]; dsimp only; omega, ?_, ?_⟩
            · rw [heq]; dsimp only
              intro he; exact Except.noConfusion he
            · intro fr hok
              rw [heq] at hok; dsimp only at hok
              obtain rfl := (Except.ok.inj hok).symm
              refine ⟨fun hn => Nat.mod_lt _ hn, Or.inr hp2, ?_⟩
              intro hva hd
              rw [heq]; dsimp only
              show (victimPrep (advanceClock s)).writes = _
              rw [victimPrep_writes, advanceClock_descs, advanceClock_pool, advanceClock_writes]
              rw [if_pos hd]
          | none =>
            simp only [hrm] at heq
            refine ⟨by rw [heq]; dsimp only; omega, ?_, ?_⟩
            · rw [heq]; dsimp only
              intro he
              exact absurd he (by simp)
            · intro fr hok
              rw [heq] at hok; dsimp only at hok
              exact Except.noConfusion hok
        · have heq := allocBufGo_succ_pinned s n hv hr hp
          rcases ih (advanceClock s) with ⟨h1, h2, h3⟩
          refine ⟨?_, ?_, ?_⟩
          · rw [heq]; dsimp only; omega
          · rw [heq]; dsimp only; intro he; rw [h2 he]
          · intro fr hok
            rw [heq] at hok; dsimp only at hok
            rw [heq]; dsimp only
            exact h3 fr hok
    · rw [Bool.not_eq_true] at hv
      have heq := allocBufGo_succ_invalid s n hv
      have hv2 := hv
      rw [advanceClock_descs] at hv2
      refine ⟨by rw [heq]; dsimp only; omega, ?_, ?_⟩
      · rw [heq]; dsimp only
        intro he; exact Except.noConfusion he
      · intro fr hok
        rw [heq] at hok; dsimp only at hok
        obtain rfl := (Except.ok.inj hok).symm
        refine ⟨fun hn => Nat.mod_lt _ hn, Or.inl hv2, ?_⟩
        intro hva hd
        rw [hv2] at hva
        exact Bool.noConfusion hva

/-- The clock sweep changes neither the pool size, the pool contents,
nor the length of the descriptor array. -/
theorem allocBufGo_state (fuel : Nat) : ∀ s : State,
    (allocBufGo s fuel).2.1.numBufs = s.numBufs ∧
    (allocBufGo s fuel).2.1.pool = s.pool ∧
    (allocBufGo s fuel).2.1.descs.length = s.descs.length := by
  induction fuel with
  | zero => intro s; exact ⟨rfl, rfl, rfl⟩
  | succ n ih =>
    intro s
    by_cases hv : (nth dfl (advanceClock s).descs (advanceClock s).clockHand).valid = true
    · by_cases hr : (nth dfl (advanceClock s).descs (advanceClock s).clockHand).refbit = true
      · have heq := allocBufGo_succ_refbit s n hv hr
        rcases ih (stepRef (advanceClock s)) with ⟨h1, h2, h3⟩
        refine ⟨?_, ?_, ?_⟩
        · rw [heq]; dsimp only; rw [h1]; rfl
        · rw [heq]; dsimp only; rw [h2]; rfl
        · rw [heq]; dsimp only; rw [h3, stepRef_descs_length]; rfl
      · rw [Bool.not_eq_true] at hr
        by_cases hp : (nth dfl (advanceClock s).descs (advanceClock s).clockHand).pinCnt = 0
        · have heq := allocBufGo_succ_victim s n hv hr hp
          cases hrm : htRemove (nth dfl (advanceClock s).descs (advanceClock s).clockHand).file
              (nth pdfl (advanceClock s).pool (advanceClock s).clockHand).num
              (victimPrep (advanceClock s)).table with
          | some t =>
            simp only [hrm] at heq
            refine ⟨?_, ?_, ?_⟩
            · rw [heq]; dsimp only; rw [victimPrep_numBufs]; rfl
            · rw [heq]; dsimp only; rw [victimPrep_pool]; rfl
            · rw [heq]; dsimp only; rw [victimPrep_descs_length]; rfl
          | none =>
            simp only [hrm] at heq
            refine ⟨?_, ?_, ?_⟩
            · rw [heq]; dsimp only; rw [victimPrep_numBufs]; rfl
            · rw [heq]; dsimp only; rw [victimPrep_pool]; rfl
            · rw [heq]; dsimp only; rw [victimPrep_descs_length]; rfl
        · have heq := allocBufGo_succ_pinned s n hv hr hp
          rcases ih (advanceClock s) with ⟨h1, h2, h3⟩
          exact ⟨by rw [heq]; dsimp only; rw [h1]; rfl, by rw [heq]; dsimp only; rw [h2]; rfl,
                 by rw [heq]; dsimp only; rw [h3]; rfl⟩
    · rw [Bool.not_eq_true] at hv
      have heq := allocBufGo_succ_invalid s n hv
      exact ⟨by rw [heq]; rfl, by rw [heq]; rfl, by rw [heq]; rfl⟩

/-- In a well-formed state whose occupied frames all have their hash
entry present, the sweep can only return a frame or BufferExceeded
(the uncaught HashNotFound of the victim removal cannot fire). -/
theorem allocBufGo_total (fuel : Nat) : ∀ s : State, Wf s → goodTable s →
    (allocBufGo s fuel).1 = .error .bufferExceeded ∨ ∃ fr, (allocBufGo s fuel).1 = .ok fr := by
  induction fuel with
  | zero => intro s _ _; exact Or.inl rfl
  | succ n ih =>
    intro s hWf hgood
    by_cases hv : (nth dfl (advanceClock s).descs (advanceClock s).clockHand).valid = true
    · by_cases hr : (nth dfl (advanceClock s).descs (advanceClock s).clockHand).refbit = true
      · have heq := allocBufGo_succ_refbit s n hv hr
        have hWf2 : Wf (stepRef (advanceClock s)) := by
          refine ⟨hWf.1, ?_, hWf.2.2⟩
          rw [stepRef_descs_length]
          exact hWf.2.1
        have hgood2 : goodTable (stepRef (advanceClock s)) := by
          intro k hk hvk
          rcases stepRef_fields (advanceClock s) k with ⟨e1, _, _, e4, _⟩
          rw [e1] at hvk
          rw [e4, stepRef_table]
          exact hgood k hk hvk
        have := ih (stepRef (advanceClock s)) hWf2 hgood2
        rw [heq]; dsimp only
        exact this
      · rw [Bool.not_eq_true] at hr
        by_cases hp : (nth dfl (advanceClock s).descs (advanceClock s).clockHand).pinCnt = 0
        · have heq := allocBufGo_succ_victim s n hv hr hp
          have hlt : (advanceClock s).clockHand < s.numBufs := Nat.mod_lt _ hWf.1
          have hgt := hgood (advanceClock s).clockHand hlt (by rw [← advanceClock_descs]; exact hv)
          rw [advanceClock_descs, advanceClock_pool, victimPrep_table, advanceClock_table] at heq
          cases hrm : htRemove (nth dfl s.descs (advanceClock s).clockHand).file
              (nth pdfl s.pool (advanceClock s).clockHand).num s.table with
          | some t =>
            simp only [hrm] at heq
            exact Or.inr ⟨(advanceClock s).clockHand, by rw [heq]⟩
          | none =>
            rw [hrm] at hgt
            simp [htRemove] at hgt
        · have heq := allocBufGo_succ_pinned s n hv hr hp
          have := ih (advanceClock s) hWf hgood
          rw [heq]; dsimp only
          exact this
    · rw [Bool.not_eq_true] at hv
      have heq := allocBufGo_succ_invalid s n hv
      exact Or.inr ⟨(advanceClock s).clockHand, by rw [heq]⟩

/-! ### Claim theorems -/

/-- C1: the claimed invariant — at most one occupied frame per
(file, pageNumber) in every reachable state — is violated by the code:
after the reachable operation sequence `traceC1` (seven public
operations from a freshly constructed pool of 3), frames 0 and 2 are
both occupied and both hold (file 1, page 1).  The culprit is
`flushFile`, which processes every frame with the parameter file's
identity: it removed the page-table entry of (1,1) while visiting the
frame that cached (2,1), then aborted with PagePinned, leaving (1,1)
cached but unindexed, so the next fetch of (1,1) loaded a second copy. -/
theorem c1_duplicate_cached_copy :
    (nth dfl (run traceC1 (init 3 [])).descs 0).valid = true ∧
    (nth dfl (run traceC1 (init 3 [])).descs 0).file = 1 ∧
    (nth dfl (run traceC1 (init 3 [])).descs 0).pageNo = 1 ∧
    (nth dfl (run traceC1 (init 3 [])).descs 2).valid = true ∧
    (nth dfl (run traceC1 (init 3 [])).descs 2).file = 1 ∧
    (nth dfl (run traceC1 (init 3 [])).descs 2).pageNo = 1 := by
  decide

/-- C2: whenever the eviction search returns a frame index, that frame
was — in the state the search started from, hence at the moment of
selection, since the sweep never pins or occupies frames — either
invalid or occupied with pin count 0. -/
theorem c2_eviction_never_selects_pinned (s : State) (fr : Nat)
    (h : (allocBuf s).1 = .ok fr) :
    (nth dfl s.descs fr).valid = false ∨ (nth dfl s.descs fr).pinCnt = 0 :=
  ((allocBufGo_master (2 * s.numBufs) s).2.2 fr h).2.1

/-- C2 witness: on a freshly constructed pool of 1 the search selects
frame 0, which is indeed invalid. -/
theorem c2_witness :
    (nth dfl (init 1 []).descs 0).valid = false ∨ (nth dfl (init 1 []).descs 0).pinCnt = 0 :=
  c2_eviction_never_selects_pinned (init 1 []) 0 (by decide)

/-- C3: when the eviction search selects an occupied victim whose
modified flag is set, the victim's content is written back through the
external file interface within the search itself — i.e. already in the
post-state of `allocBuf`, before the caller can reuse the frame: the
write log of the returned state extends the original log with exactly
the victim's (owning file, content) pair. -/
theorem c3_dirty_victim_written_back (s : State) (fr : Nat)
    (hok : (allocBuf s).1 = .ok fr)
    (hval : (nth dfl s.descs fr).valid = true)
    (hd : (nth dfl s.descs fr).dirty = true) :
    (allocBuf s).2.writes = s.writes ++ [((nth dfl s.descs fr).file, nth pdfl s.pool fr)] :=
  ((allocBufGo_master (2 * s.numBufs) s).2.2 fr hok).2.2 hval hd

/-- C3 witness: the spec's scenario — fetch page (1,1), release it with
markModified = true, then fill the single-frame pool with another page
so that its frame is evicted: the eviction selects frame 0 (occupied,
dirty) and the file interface observes the write of page (1,1)'s
content (data 5) before the frame is handed out for reuse. -/
theorem c3_witness :
    (allocBuf sC3).2.writes = sC3.writes ++ [((nth dfl sC3.descs 0).file, nth pdfl sC3.pool 0)] ∧
    (allocBuf sC3).2.writes = [(1, ⟨1, 5⟩)] :=
  ⟨c3_dirty_victim_written_back sC3 0 (by decide) (by decide) (by decide), by decide⟩

/-- C4: in a well-formed pool whose occupied frames are all indexed by
the page table, the eviction search fails with BufferExceeded exactly
when even the full allowance of 2 × numFrames inspections finds no
victim (on failure the inspection count equals 2 × numFrames, and more
would be needed), and otherwise it terminates with a victim within that
bound (the inspection count never exceeds 2 × numFrames, and the result
is then a frame).  In particular — the spec's scenario — with pool size
3, after fetching three distinct pages of a file without releasing any,
fetching a fourth distinct page fails with BufferExceeded. -/
theorem c4_eviction_search_bound :
    (∀ s : State, Wf s → goodTable s →
      ((allocBuf s).1 = .error .bufferExceeded → inspCount s = 2 * s.numBufs) ∧
      inspCount s ≤ 2 * s.numBufs ∧
      ((allocBuf s).1 = .error .bufferExceeded ∨ ∃ fr, (allocBuf s).1 = .ok fr)) ∧
    (readPage 1 4 sC4).1 = .error .bufferExceeded := by
  constructor
  · intro s hWf hgood
    rcases allocBufGo_master (2 * s.numBufs) s with ⟨h1, h2, _⟩
    exact ⟨fun he => h2 he, h1, allocBufGo_total (2 * s.numBufs) s hWf hgood⟩
  · decide

/-- C4 witness: the bound statement applied to the concrete exhausted
pool of the scenario (all three frames pinned). -/
theorem c4_witness :
    ((allocBuf sC4).1 = .error .bufferExceeded → inspCount sC4 = 2 * sC4.numBufs) ∧
    inspCount sC4 ≤ 2 * sC4.numBufs ∧
    ((allocBuf sC4).1 = .error .bufferExceeded ∨ ∃ fr, (allocBuf sC4).1 = .ok fr) :=
  c4_eviction_search_bound.1 sC4 (by decide) (by decide)

theorem alook_mem (k : Nat × Nat) (t : List Entry) (v : Nat) (h : alook k t = some v) :
    (k, v) ∈ t := by
  induction t with
  | nil => exact Option.noConfusion h
  | cons e t ih =>
    by_cases he : e.1 = k
    · simp only [alook, if_pos he] at h
      obtain rfl := Option.some.inj h
      rw [← he]
      exact List.mem_cons_self e t
    · simp only [alook, if_neg he] at h
      exact List.mem_cons_of_mem e (ih h)

/-- C5 (amended): a release of a cached key whose pin count is zero
fails with PageNotPinned and changes nothing; a release of a key that
is not cached fails with the page-table NotFound error instead (the
unguarded lookup of `unPinPage` propagates it), not with PageNotPinned;
a release of a cached key with positive pin count succeeds and
decrements the pin count by exactly one (pin counts are naturals, so
none of this ever drives a pin count negative). -/
theorem c5_release_pin_discipline :
    (∀ s f p (d : Bool), htLookup f p s.table = none →
      unPinPage f p d s = (.error .hashNotFound, s)) ∧
    (∀ s f p (d : Bool) fr, htLookup f p s.table = some fr →
      (nth dfl s.descs fr).pinCnt = 0 →
      unPinPage f p d s = (.error .pageNotPinned, s)) ∧
    (∀ s f p (d : Bool) fr n, htLookup f p s.table = some fr → fr < s.descs.length →
      (nth dfl s.descs fr).pinCnt = n + 1 →
      (unPinPage f p d s).1 = .ok () ∧
      (nth dfl (unPinPage f p d s).2.descs fr).pinCnt = n) := by
  refine ⟨?_, ?_, ?_⟩
  · intro s f p d h
    simp [unPinPage, h]
  · intro s f p d fr h hp
    simp [unPinPage, h, hp]
  · intro s f p d fr n h hfr hp
    have hne : (nth dfl s.descs fr).pinCnt ≠ 0 := by omega
    refine ⟨by simp [unPinPage, h, hne], ?_⟩
    simp only [unPinPage, h, if_neg hne]
    rw [nth_setN_self s.descs fr _ dfl hfr]
    simp [hp]

/-- C5 counterexample: on a freshly constructed pool nothing is cached,
and a release of (file 1, page 1) — a call where the key is not cached —
fails with the NotFound error of the page-table lookup, not with
PageNotPinned as the claim states. -/
theorem c5_counterexample :
    htLookup 1 1 (init 1 []).table = none ∧
    (unPinPage 1 1 false (init 1 [])).1 = .error .hashNotFound ∧
    (unPinPage 1 1 false (init 1 [])).1 ≠ .error .pageNotPinned := by
  decide

/-- C5 witness: in `sC3`, page (1,1) is cached with pin count 0 (it was
fetched and released once), and releasing it again fails with
PageNotPinned — the spec's release-twice scenario; in `sC4`, page (1,1)
is cached with pin count 1 and its release succeeds, leaving pin count
0. -/
theorem c5_witness :
    unPinPage 1 1 false sC3 = (.error .pageNotPinned, sC3) ∧
    (unPinPage 1 1 false sC4).1 = .ok () ∧
    (nth dfl (unPinPage 1 1 false sC4).2.descs 0).pinCnt = 0 := by
  refine ⟨c5_release_pin_discipline.2.1 sC3 1 1 false 0 (by decide) (by decide), ?_, ?_⟩
  · exact (c5_release_pin_discipline.2.2 sC4 1 1 false 0 0 (by decide) (by decide) (by decide)).1
  · exact (c5_release_pin_discipline.2.2 sC4 1 1 false 0 0 (by decide) (by decide) (by decide)).2

/-- C9: a successful release decrements the pin count by one and
updates the modified flag to its old value OR the markModified
argument — so markModified = true sets it, markModified = false leaves
it unchanged and never clears an already-set flag — while every other
descriptor field of the released frame, every other descriptor, and
every other component of the manager state are left unchanged. -/
theorem c9_release_modified_sticky (s : State) (f p : Nat) (d : Bool) (fr : Nat)
    (h : htLookup f p s.table = some fr) (hfr : fr < s.descs.length)
    (hp : (nth dfl s.descs fr).pinCnt ≠ 0) :
    (unPinPage f p d s).1 = .ok () ∧
    (nth dfl (unPinPage f p d s).2.descs fr).dirty = ((nth dfl s.descs fr).dirty || d) ∧
    (nth dfl (unPinPage f p d s).2.descs fr).pinCnt = (nth dfl s.descs fr).pinCnt - 1 ∧
    (nth dfl (unPinPage f p d s).2.descs fr).valid = (nth dfl s.descs fr).valid ∧
    (nth dfl (unPinPage f p d s).2.descs fr).refbit = (nth dfl s.descs fr).refbit ∧
    (nth dfl (unPinPage f p d s).2.descs fr).file = (nth dfl s.descs fr).file ∧
    (nth dfl (unPinPage f p d s).2.descs fr).pageNo = (nth dfl s.descs fr).pageNo ∧
    (∀ k, k ≠ fr → nth dfl (unPinPage f p d s).2.descs k = nth dfl s.descs k) ∧
    (unPinPage f p d s).2.pool = s.pool ∧
    (unPinPage f p d s).2.table = s.table ∧
    (unPinPage f p d s).2.clockHand = s.clockHand ∧
    (unPinPage f p d s).2.writes = s.writes ∧
    (unPinPage f p d s).2.disk = s.disk := by
  have hres : unPinPage f p d s = (.ok (), { s with descs := setN s.descs fr { nth dfl s.descs fr with dirty := if d then true else (nth dfl s.descs fr).dirty, pinCnt := (nth dfl s.descs fr).pinCnt - 1 } }) := by
    simp [unPinPage, h, hp]
  rw [hres]
  dsimp only
  rw [nth_setN_self s.descs fr _ dfl hfr]
  refine ⟨rfl, ?_, rfl, rfl, rfl, rfl, rfl, ?_, rfl, rfl, rfl, rfl, rfl⟩
  · cases d <;> simp
  · intro k hk
    exact nth_setN_ne s.descs fr k _ dfl (fun hcon => hk hcon.symm)

/-- C9 witness: in `sC9` page (1,1) is cached in frame 0 with pin count
1 and a clean modified flag; releasing it with markModified = true
succeeds and sets the flag (false || true). -/
theorem c9_witness :
    (unPinPage 1 1 true sC9).1 = .ok () ∧
    (nth dfl (unPinPage 1 1 true sC9).2.descs 0).dirty = ((nth dfl sC9.descs 0).dirty || true) ∧
    (nth dfl (unPinPage 1 1 true sC9).2.descs 0).refbit = (nth dfl sC9.descs 0).refbit :=
  ⟨(c9_release_modified_sticky sC9 1 1 true 0 (by decide) (by decide) (by decide)).1,
   (c9_release_modified_sticky sC9 1 1 true 0 (by decide) (by decide) (by decide)).2.1,
   (c9_release_modified_sticky sC9 1 1 true 0 (by decide) (by decide) (by decide)).2.2.2.2.1⟩

/-- C8: part one — after any successful fetch, a page-table lookup of
the requested key resolves to a frame whose pin count is at least 1 and
whose referenced flag is set.  Part two — on a cache hit, fetch leaves
the pool and page table untouched, returns the cached content, sets the
referenced flag and increments the pin count by exactly one. -/
theorem c8_fetch_references_and_pins :
    (∀ s f p r, Wf s → tableWf s → (readPage f p s).1 = .ok r →
      ∃ fr, htLookup f p (readPage f p s).2.table = some fr ∧
        1 ≤ (nth dfl (readPage f p s).2.descs fr).pinCnt ∧
        (nth dfl (readPage f p s).2.descs fr).refbit = true) ∧
    (∀ s f p fr, htLookup f p s.table = some fr → fr < s.descs.length →
      (readPage f p s).1 = .ok (fr, nth pdfl s.pool fr) ∧
      (readPage f p s).2.pool = s.pool ∧
      (readPage f p s).2.table = s.table ∧
      (nth dfl (readPage f p s).2.descs fr).pinCnt = (nth dfl s.descs fr).pinCnt + 1 ∧
      (nth dfl (readPage f p s).2.descs fr).refbit = true) := by
  have hhit : ∀ s f p fr, htLookup f p s.table = some fr → fr < s.descs.length →
      (readPage f p s).1 = .ok (fr, nth pdfl s.pool fr) ∧
      (readPage f p s).2.pool = s.pool ∧
      (readPage f p s).2.table = s.table ∧
      (nth dfl (readPage f p s).2.descs fr).pinCnt = (nth dfl s.descs fr).pinCnt + 1 ∧
      (nth dfl (readPage f p s).2.descs fr).refbit = true := by
    intro s f p fr hl hfr
    simp only [readPage, hl]
    rw [nth_setN_self s.descs fr _ dfl hfr]
    simp
  refine ⟨?_, hhit⟩
  intro s f p r hWf hT hok
  cases hl : htLookup f p s.table with
  | some fr =>
    have hfr : fr < s.descs.length := by
      have hm := alook_mem (f, p) s.table fr hl
      have hb := hT ((f, p), fr) hm
      rw [hWf.2.1]
      exact hb
    rcases hhit s f p fr hl hfr with ⟨b1, b2, b3, b4, b5⟩
    refine ⟨fr, ?_, ?_, b5⟩
    · rw [b3]; exact hl
    · rw [b4]; omega
  | none =>
    cases hA : allocBuf s with
    | mk r1 s1 =>
      cases r1 with
      | error e =>
        simp only [readPage, hl, hA] at hok
        exact Except.noConfusion hok
      | ok frameNo =>
        have hok1 : (allocBuf s).1 = .ok frameNo := by rw [hA]
        have hlt : frameNo < s.numBufs :=
          ((allocBufGo_master (2 * s.numBufs) s).2.2 frameNo hok1).1 hWf.1
        have hs1 : s1 = (allocBuf s).2 := by rw [hA]
        have hs1len : s1.descs.length = s.descs.length := by
          rw [hs1]
          exact (allocBufGo_state (2 * s.numBufs) s).2.2
        cases hF : fileReadPage f p s1 with
        | none =>
          simp only [readPage, hl, hA, hF] at hok
          exact Except.noConfusion hok
        | some pg =>
          cases hAl : alook (f, p) s1.table with
          | some v =>
            simp only [readPage, hl, hA, hF, htInsert, hAl] at hok
            exact Except.noConfusion hok
          | none =>
            have hred : readPage f p s = (.ok (frameNo, nth pdfl (setN s1.pool frameNo pg) frameNo), { s1 with pool := setN s1.pool frameNo pg, table := ((f, p), frameNo) :: s1.table, descs := setN s1.descs frameNo (setDesc f p) }) := by
              simp only [readPage, hl, hA, hF, htInsert, hAl]
            rw [hred]
            dsimp only
            refine ⟨frameNo, ?_, ?_, ?_⟩
            · simp [htLookup, alook]
            · rw [nth_setN_self s1.descs frameNo _ dfl (by rw [hs1len, hWf.2.1]; exact hlt)]
              exact Nat.le_refl 1
            · rw [nth_setN_self s1.descs frameNo _ dfl (by rw [hs1len, hWf.2.1]; exact hlt)]
              rfl

/-- C8 witness: part one applied to the hit `readPage 1 1 sC9` (page
(1,1) cached in frame 0 with pin count 1), and part two applied to the
same hit: pin count goes from 1 to 2, referenced stays true, and the
cached content of frame 0 is returned. -/
theorem c8_witness :
    (∃ fr, htLookup 1 1 (readPage 1 1 sC9).2.table = some fr ∧
      1 ≤ (nth dfl (readPage 1 1 sC9).2.descs fr).pinCnt ∧
      (nth dfl (readPage 1 1 sC9).2.descs fr).refbit = true) ∧
    (readPage 1 1 sC9).1 = .ok (0, nth pdfl sC9.pool 0) ∧
    (nth dfl (readPage 1 1 sC9).2.descs 0).pinCnt = (nth dfl sC9.descs 0).pinCnt + 1 := by
  have ha := c8_fetch_references_and_pins.1 sC9 1 1 (0, nth pdfl sC9.pool 0)
    (by decide) (by decide) (by decide)
  have hb := c8_fetch_references_and_pins.2 sC9 1 1 0 (by decide) (by decide)
  exact ⟨ha, hb.1, hb.2.2.2.1⟩

/-! ### Unfolding and support lemmas for the flush loop -/

theorem flushGo_zero (f : Nat) (s : State) (i : Nat) : flushGo f s i 0 = (.ok (), s) := rfl

theorem flushGo_succ_pinned (f : Nat) (s : State) (i rem : Nat)
    (hp : (nth dfl s.descs i).pinCnt ≠ 0) :
    flushGo f s i (rem + 1) = (.error .pagePinned, s) := by
  simp only [flushGo, if_pos hp]

theorem flushGo_succ_invalid (f : Nat) (s : State) (i rem : Nat)
    (hp : (nth dfl s.descs i).pinCnt = 0) (hv : (nth dfl s.descs i).valid = false) :
    flushGo f s i (rem + 1) = (.error .badBuffer, s) := by
  simp only [flushGo, hp, hv]
  simp

theorem flushGo_succ_step (f : Nat) (s : State) (i rem : Nat)
    (hp : (nth dfl s.descs i).pinCnt = 0) (hv : (nth dfl s.descs i).valid = true) :
    flushGo f s i (rem + 1) = flushGo f (flushStep f s i) (i + 1) rem := by
  simp only [flushGo, flushStep, hp, hv]
  simp

theorem flushStep_numBufs (f : Nat) (s : State) (i : Nat) :
    (flushStep f s i).numBufs = s.numBufs := by
  simp only [flushStep]
  cases htRemove f (nth pdfl s.pool i).num (if (nth dfl s.descs i).dirty then writePageS f (nth pdfl s.pool i) s else s).table <;>
    by_cases h : (nth dfl s.descs i).dirty = true <;> simp [writePageS, h]

theorem flushStep_pool (f : Nat) (s : State) (i : Nat) :
    (flushStep f s i).pool = s.pool := by
  simp only [flushStep]
  cases htRemove f (nth pdfl s.pool i).num (if (nth dfl s.descs i).dirty then writePageS f (nth pdfl s.pool i) s else s).table <;>
    by_cases h : (nth dfl s.descs i).dirty = true <;> simp [writePageS, h]

theorem flushStep_descs_length (f : Nat) (s : State) (i : Nat) :
    (flushStep f s i).descs.length = s.descs.length := by
  simp only [flushStep]
  cases htRemove f (nth pdfl s.pool i).num (if (nth dfl s.descs i).dirty then writePageS f (nth pdfl s.pool i) s else s).table <;>
    by_cases h : (nth dfl s.descs i).dirty = true <;> simp [writePageS, h, length_setN]

theorem flushStep_descs_ne (f : Nat) (s : State) (i k : Nat) (h : k ≠ i) :
    nth dfl (flushStep f s i).descs k = nth dfl s.descs k := by
  simp only [flushStep]
  cases htRemove f (nth pdfl s.pool i).num (if (nth dfl s.descs i).dirty then writePageS f (nth pdfl s.pool i) s else s).table <;>
    by_cases hd : (nth dfl s.descs i).dirty = true <;>
      simp [writePageS, hd, nth_setN_ne _ i k _ dfl (fun hc => h hc.symm)]

theorem flushStep_descs_self (f : Nat) (s : State) (i : Nat) (h : i < s.descs.length) :
    nth dfl (flushStep f s i).descs i = clearDesc := by
  simp only [flushStep]
  cases htRemove f (nth pdfl s.pool i).num (if (nth dfl s.descs i).dirty then writePageS f (nth pdfl s.pool i) s else s).table <;>
    by_cases hd : (nth dfl s.descs i).dirty = true <;>
      simp [writePageS, hd, nth_setN_self _ i _ dfl h]

theorem flushStep_table_sub (f : Nat) (s : State) (i : Nat) :
    (flushStep f s i).table.Sublist s.table := by
  simp only [flushStep]
  cases hrm : htRemove f (nth pdfl s.pool i).num (if (nth dfl s.descs i).dirty then writePageS f (nth pdfl s.pool i) s else s).table with
  | some t =>
    by_cases hd : (nth dfl s.descs i).dirty = true
    · rw [if_pos hd] at hrm
      have := aerase_sublist _ _ _ hrm
      simpa [writePageS, hd] using this
    · rw [Bool.not_eq_true] at hd
      rw [if_neg (by rw [hd]; exact Bool.false_ne_true)] at hrm
      have := aerase_sublist _ _ _ hrm
      simpa [hd] using this
  | none =>
    by_cases hd : (nth dfl s.descs i).dirty = true <;>
      [skip; rw [Bool.not_eq_true] at hd] <;> simp [writePageS, hd]

theorem flushStep_writes_eq (f : Nat) (s : State) (i : Nat) :
    (flushStep f s i).writes =
      if (nth dfl s.descs i).dirty then s.writes ++ [(f, nth pdfl s.pool i)] else s.writes := by
  simp only [flushStep]
  cases htRemove f (nth pdfl s.pool i).num (if (nth dfl s.descs i).dirty then writePageS f (nth pdfl s.pool i) s else s).table <;>
    by_cases hd : (nth dfl s.descs i).dirty = true <;> simp [writePageS, hd]

theorem flushStep_writes_super (f : Nat) (s : State) (i : Nat) (x : Nat × Page)
    (hx : x ∈ s.writes) : x ∈ (flushStep f s i).writes := by
  rw [flushStep_writes_eq]
  by_cases hd : (nth dfl s.descs i).dirty = true
  · rw [if_pos hd]
    exact List.mem_append.mpr (Or.inl hx)
  · rw [Bool.not_eq_true] at hd
    rw [if_neg (by rw [hd]; exact Bool.false_ne_true)]
    exact hx

theorem flushStep_writes_new (f : Nat) (s : State) (i : Nat) (x : Nat × Page)
    (hx : x ∈ (flushStep f s i).writes) : x ∈ s.writes ∨ x.1 = f := by
  rw [flushStep_writes_eq] at hx
  by_cases hd : (nth dfl s.descs i).dirty = true
  · rw [if_pos hd] at hx
    rcases List.mem_append.mp hx with h | h
    · exact Or.inl h
    · right
      simp only [List.mem_singleton] at h
      rw [h]
  · rw [Bool.not_eq_true] at hd
    rw [if_neg (by rw [hd]; exact Bool.false_ne_true)] at hx
    exact Or.inl hx

theorem flushStep_write_mem (f : Nat) (s : State) (i : Nat)
    (hd : (nth dfl s.descs i).dirty = true) :
    (f, nth pdfl s.pool i) ∈ (flushStep f s i).writes := by
  rw [flushStep_writes_eq, if_pos hd]
  exact List.mem_append.mpr (Or.inr (List.mem_singleton.mpr rfl))

theorem flushStep_table_eq (f : Nat) (s : State) (i : Nat) :
    (flushStep f s i).table = (htRemove f (nth pdfl s.pool i).num s.table).getD s.table := by
  simp only [flushStep]
  by_cases hd : (nth dfl s.descs i).dirty = true
  · simp only [if_pos hd, writePageS]
    cases hrm : htRemove f (nth pdfl s.pool i).num s.table with
    | some t => simp [hrm]
    | none => simp [hrm]
  · rw [Bool.not_eq_true] at hd
    simp only [hd, Bool.false_eq_true, if_false]
    cases hrm : htRemove f (nth pdfl s.pool i).num s.table with
    | some t => simp [hrm]
    | none => simp [hrm]

theorem flushStep_lookup_none (f : Nat) (s : State) (i : Nat) (hu : uniqKeys s.table) :
    alook (f, (nth pdfl s.pool i).num) (flushStep f s i).table = none := by
  rw [flushStep_table_eq]
  cases hrm : htRemove f (nth pdfl s.pool i).num s.table with
  | some t =>
    simp only [Option.getD_some]
    exact aerase_uniq_alook_none _ _ _ hu hrm
  | none =>
    simp only [Option.getD_none]
    exact (aerase_none_iff _ _).mp hrm

theorem flushStep_mem_ne (f : Nat) (s : State) (i : Nat) (e : Entry)
    (he : e ∈ s.table) (hf : e.1.1 ≠ f) : e ∈ (flushStep f s i).table := by
  rw [flushStep_table_eq]
  cases hrm : htRemove f (nth pdfl s.pool i).num s.table with
  | some t =>
    simp only [Option.getD_some]
    refine aerase_mem_preserved _ _ _ _ hrm he ?_
    intro hc
    rw [hc] at hf
    exact hf rfl
  | none =>
    simpa using he

theorem flushStep_uniq (f : Nat) (s : State) (i : Nat) (hu : uniqKeys s.table) :
    uniqKeys (flushStep f s i).table :=
  uniq_sublist _ _ (flushStep_table_sub f s i) hu

theorem flushGo_writes_super (f : Nat) : ∀ (rem i : Nat) (s : State) (x : Nat × Page),
    x ∈ s.writes → x ∈ (flushGo f s i rem).2.writes := by
  intro rem
  induction rem with
  | zero => intro i s x hx; exact hx
  | succ rem ih =>
    intro i s x hx
    by_cases hp : (nth dfl s.descs i).pinCnt ≠ 0
    · rw [flushGo_succ_pinned f s i rem hp]; exact hx
    · have hp0 : (nth dfl s.descs i).pinCnt = 0 := by omega
      by_cases hv : (nth dfl s.descs i).valid = true
      · rw [flushGo_succ_step f s i rem hp0 hv]
        exact ih (i + 1) (flushStep f s i) x (flushStep_writes_super f s i x hx)
      · rw [Bool.not_eq_true] at hv
        rw [flushGo_succ_invalid f s i rem hp0 hv]; exact hx

theorem flushGo_writes_new (f : Nat) : ∀ (rem i : Nat) (s : State) (x : Nat × Page),
    x ∈ (flushGo f s i rem).2.writes → x ∈ s.writes ∨ x.1 = f := by
  intro rem
  induction rem with
  | zero => intro i s x hx; exact Or.inl hx
  | succ rem ih =>
    intro i s x hx
    by_cases hp : (nth dfl s.descs i).pinCnt ≠ 0
    · rw [flushGo_succ_pinned f s i rem hp] at hx; exact Or.inl hx
    · have hp0 : (nth dfl s.descs i).pinCnt = 0 := by omega
      by_cases hv : (nth dfl s.descs i).valid = true
      · rw [flushGo_succ_step f s i rem hp0 hv] at hx
        rcases ih (i + 1) (flushStep f s i) x hx with h | h
        · exact flushStep_writes_new f s i x h
        · exact Or.inr h
      · rw [Bool.not_eq_true] at hv
        rw [flushGo_succ_invalid f s i rem hp0 hv] at hx; exact Or.inl hx

theorem flushGo_table_sub (f : Nat) : ∀ (rem i : Nat) (s : State),
    (flushGo f s i rem).2.table.Sublist s.table := by
  intro rem
  induction rem with
  | zero => intro i s; exact List.Sublist.refl _
  | succ rem ih =>
    intro i s
    by_cases hp : (nth dfl s.descs i).pinCnt ≠ 0
    · rw [flushGo_succ_pinned f s i rem hp]
    · have hp0 : (nth dfl s.descs i).pinCnt = 0 := by omega
      by_cases hv : (nth dfl s.descs i).valid = true
      · rw [flushGo_succ_step f s i rem hp0 hv]
        exact (ih (i + 1) (flushStep f s i)).trans (flushStep_table_sub f s i)
      · rw [Bool.not_eq_true] at hv
        rw [flushGo_succ_invalid f s i rem hp0 hv]

theorem flushGo_descs_lt (f : Nat) : ∀ (rem i : Nat) (s : State) (k : Nat), k < i →
    nth dfl (flushGo f s i rem).2.descs k = nth dfl s.descs k := by
  intro rem
  induction rem with
  | zero => intro i s k _; rfl
  | succ rem ih =>
    intro i s k hk
    by_cases hp : (nth dfl s.descs i).pinCnt ≠ 0
    · rw [flushGo_succ_pinned f s i rem hp]
    · have hp0 : (nth dfl s.descs i).pinCnt = 0 := by omega
      by_cases hv : (nth dfl s.descs i).valid = true
      · rw [flushGo_succ_step f s i rem hp0 hv]
        rw [ih (i + 1) (flushStep f s i) k (by omega)]
        exact flushStep_descs_ne f s i k (by omega)
      · rw [Bool.not_eq_true] at hv
        rw [flushGo_succ_invalid f s i rem hp0 hv]

/-- Behaviour of the flush loop when the first offending frame at or
after position `i` is a pinned frame `m`: the loop fails with
PagePinned there, frames before `m` are already cleared, written back
when dirty, and de-indexed, and frames from `m` on are untouched. -/
theorem flushGo_pinned_first (f : Nat) : ∀ (rem i : Nat) (s : State) (m : Nat),
    i + rem = s.numBufs → s.descs.length = s.numBufs → uniqKeys s.table →
    i ≤ m → m < s.numBufs →
    (∀ j, i ≤ j → j < m → (nth dfl s.descs j).pinCnt = 0 ∧ (nth dfl s.descs j).valid = true) →
    (nth dfl s.descs m).pinCnt ≠ 0 →
    (flushGo f s i rem).1 = .error .pagePinned ∧
    (∀ j, i ≤ j → j < m → nth dfl (flushGo f s i rem).2.descs j = clearDesc) ∧
    (∀ k, m ≤ k → nth dfl (flushGo f s i rem).2.descs k = nth dfl s.descs k) ∧
    (∀ j, i ≤ j → j < m → (nth dfl s.descs j).dirty = true →
      (f, nth pdfl s.pool j) ∈ (flushGo f s i rem).2.writes) ∧
    (∀ j, i ≤ j → j < m → alook (f, (nth pdfl s.pool j).num) (flushGo f s i rem).2.table = none) := by
  intro rem
  induction rem with
  | zero =>
    intro i s m hrem _ _ him hm _ _
    exact absurd hm (by omega)
  | succ rem ih =>
    intro i s m hrem hlen hu him hm hrange hpin
    by_cases him2 : i = m
    · subst him2
      rw [flushGo_succ_pinned f s i rem hpin]
      refine ⟨rfl, ?_, ?_, ?_, ?_⟩
      · intro j h1 h2; exact absurd h2 (by omega)
      · intro k _; rfl
      · intro j h1 h2; exact absurd h2 (by omega)
      · intro j h1 h2; exact absurd h2 (by omega)
    · have hi_lt : i < m := by omega
      rcases hrange i (Nat.le_refl i) hi_lt with ⟨hp0, hv⟩
      rw [flushGo_succ_step f s i rem hp0 hv]
      have hnum : (flushStep f s i).numBufs = s.numBufs := flushStep_numBufs f s i
      have hlen2 : (flushStep f s i).descs.length = (flushStep f s i).numBufs := by
        rw [flushStep_descs_length, hnum]; exact hlen
      have hrec := ih (i + 1) (flushStep f s i) m
        (by rw [hnum]; omega) hlen2 (flushStep_uniq f s i hu) (by omega) (by rw [hnum]; exact hm)
        (fun j h1 h2 => by
          rw [flushStep_descs_ne f s i j (by omega)]
          exact hrange j (by omega) h2)
        (by rw [flushStep_descs_ne f s i m (by omega)]; exact hpin)
      rcases hrec with ⟨r1, r2, r3, r4, r5⟩
      refine ⟨r1, ?_, ?_, ?_, ?_⟩
      · intro j h1 h2
        by_cases hji : j = i
        · subst hji
          rw [flushGo_descs_lt f rem (j + 1) (flushStep f s j) j (by omega)]
          exact flushStep_descs_self f s j (by rw [hlen]; omega)
        · exact r2 j (by omega) h2
      · intro k hk
        rw [r3 k hk]
        exact flushStep_descs_ne f s i k (by omega)
      · intro j h1 h2 hd
        by_cases hji : j = i
        · subst hji
          exact flushGo_writes_super f rem (j + 1) (flushStep f s j) _
            (flushStep_write_mem f s j hd)
        · have hmem := r4 j (by omega) h2
            (by rw [flushStep_descs_ne f s i j (fun hc => hji hc)]; exact hd)
          rw [flushStep_pool] at hmem
          exact hmem
      · intro j h1 h2
        by_cases hji : j = i
        · subst hji
          exact alook_none_sublist _ _ _
            (flushGo_table_sub f rem (j + 1) (flushStep f s j))
            (flushStep_lookup_none f s j hu)
        · have hnone := r5 j (by omega) h2
          rw [flushStep_pool] at hnone
          exact hnone

/-- Behaviour of a flush loop run that returns successfully from
position `i`: every remaining frame was unpinned and occupied, every
remaining frame ends up cleared, every dirty remaining frame's content
is on the write log tagged with the parameter file, and every table
entry belonging to a different file survives. -/
theorem flushGo_ok (f : Nat) : ∀ (rem i : Nat) (s : State),
    s.descs.length = s.numBufs → i + rem = s.numBufs →
    (flushGo f s i rem).1 = .ok () →
    (∀ k, i ≤ k → k < s.numBufs → nth dfl (flushGo f s i rem).2.descs k = clearDesc) ∧
    (∀ k, i ≤ k → k < s.numBufs → (nth dfl s.descs k).dirty = true →
      (f, nth pdfl s.pool k) ∈ (flushGo f s i rem).2.writes) ∧
    (∀ e ∈ s.table, e.1.1 ≠ f → e ∈ (flushGo f s i rem).2.table) ∧
    (∀ k, i ≤ k → k < s.numBufs →
      (nth dfl s.descs k).pinCnt = 0 ∧ (nth dfl s.descs k).valid = true) := by
  intro rem
  induction rem with
  | zero =>
    intro i s _ hrem _
    refine ⟨?_, ?_, ?_, ?_⟩
    · intro k h1 h2; exact absurd h2 (by omega)
    · intro k h1 h2; exact absurd h2 (by omega)
    · intro e he _; exact he
    · intro k h1 h2; exact absurd h2 (by omega)
  | succ rem ih =>
    intro i s hlen hrem hok
    by_cases hp : (nth dfl s.descs i).pinCnt ≠ 0
    · rw [flushGo_succ_pinned f s i rem hp] at hok
      exact Except.noConfusion hok
    · have hp0 : (nth dfl s.descs i).pinCnt = 0 := by omega
      by_cases hv : (nth dfl s.descs i).valid = true
      · rw [flushGo_succ_step f s i rem hp0 hv] at hok ⊢
        have hnum : (flushStep f s i).numBufs = s.numBufs := flushStep_numBufs f s i
        have hlen2 : (flushStep f s i).descs.length = (flushStep f s i).numBufs := by
          rw [flushStep_descs_length, hnum]; exact hlen
        have hrec := ih (i + 1) (flushStep f s i) hlen2 (by rw [hnum]; omega) hok
        rcases hrec with ⟨r1, r2, r3, r4⟩
        rw [hnum] at r1 r2 r4
        refine ⟨?_, ?_, ?_, ?_⟩
        · intro k h1 h2
          by_cases hki : k = i
          · subst hki
            rw [flushGo_descs_lt f rem (k + 1) (flushStep f s k) k (by omega)]
            exact flushStep_descs_self f s k (by rw [hlen]; omega)
          · exact r1 k (by omega) h2
        · intro k h1 h2 hd
          by_cases hki : k = i
          · subst hki
            exact flushGo_writes_super f rem (k + 1) (flushStep f s k) _
              (flushStep_write_mem f s k hd)
          · have hmem := r2 k (by omega) h2
              (by rw [flushStep_descs_ne f s i k (fun hc => hki hc)]; exact hd)
            rw [flushStep_pool] at hmem
            exact hmem
        · intro e he hef
          exact r3 e (flushStep_mem_ne f s i e he hef) hef
        · intro k h1 h2
          by_cases hki : k = i
          · subst hki
            exact ⟨hp0, hv⟩
          · have hkd := r4 k (by omega) h2
            rw [flushStep_descs_ne f s i k (fun hc => hki hc)] at hkd
            exact hkd
      · rw [Bool.not_eq_true] at hv
        rw [flushGo_succ_invalid f s i rem hp0 hv] at hok
        exact Except.noConfusion hok

/-- Behaviour of the flush loop when the first offending frame at or
after position `i` is an unpinned invalid frame `m`: the loop fails
with BadBuffer. -/
theorem flushGo_badbuf (f : Nat) : ∀ (rem i : Nat) (s : State) (m : Nat),
    i + rem = s.numBufs → s.descs.length = s.numBufs →
    i ≤ m → m < s.numBufs →
    (∀ j, i ≤ j → j < m → (nth dfl s.descs j).pinCnt = 0 ∧ (nth dfl s.descs j).valid = true) →
    (nth dfl s.descs m).pinCnt = 0 → (nth dfl s.descs m).valid = false →
    (flushGo f s i rem).1 = .error .badBuffer := by
  intro rem
  induction rem with
  | zero =>
    intro i s m hrem _ him hm _ _ _
    exact absurd hm (by omega)
  | succ rem ih =>
    intro i s m hrem hlen him hm hrange hmp hmv
    by_cases him2 : i = m
    · subst him2
      rw [flushGo_succ_invalid f s i rem hmp hmv]
    · have hi_lt : i < m := by omega
      rcases hrange i (Nat.le_refl i) hi_lt with ⟨hp0, hv⟩
      rw [flushGo_succ_step f s i rem hp0 hv]
      have hnum : (flushStep f s i).numBufs = s.numBufs := flushStep_numBufs f s i
      have hlen2 : (flushStep f s i).descs.length = (flushStep f s i).numBufs := by
        rw [flushStep_descs_length, hnum]; exact hlen
      exact ih (i + 1) (flushStep f s i) m (by rw [hnum]; omega) hlen2 (by omega)
        (by rw [hnum]; exact hm)
        (fun j h1 h2 => by
          rw [flushStep_descs_ne f s i j (by omega)]
          exact hrange j (by omega) h2)
        (by rw [flushStep_descs_ne f s i m (by omega)]; exact hmp)
        (by rw [flushStep_descs_ne f s i m (by omega)]; exact hmv)

theorem nth_replicate (d a : α) (n k : Nat) (h : k < n) :
    nth d (List.replicate n a) k = a := by
  induction n generalizing k with
  | zero => exact absurd h (by omega)
  | succ n ih =>
    cases k with
    | zero => rfl
    | succ k => exact ih k (by omega)

/-- C6: when every frame below `m` is unpinned and occupied and frame
`m` is pinned, `flushFile` fails with PagePinned at `m`, and the
failure is non-atomic: the frames below `m` have already been cleared,
written back (through the parameter file) when modified, and removed
from the page table, while frames from `m` on keep their descriptors —
nothing is restored. -/
theorem c6_flush_fails_nonatomically (s : State) (f m : Nat)
    (hWf : Wf s) (hu : uniqKeys s.table) (hm : m < s.numBufs)
    (hbefore : ∀ j, j < m → (nth dfl s.descs j).pinCnt = 0 ∧ (nth dfl s.descs j).valid = true)
    (hpin : (nth dfl s.descs m).pinCnt ≠ 0) :
    (flushFile f s).1 = .error .pagePinned ∧
    (∀ j, j < m → nth dfl (flushFile f s).2.descs j = clearDesc) ∧
    (∀ k, m ≤ k → nth dfl (flushFile f s).2.descs k = nth dfl s.descs k) ∧
    (∀ j, j < m → (nth dfl s.descs j).dirty = true →
      (f, nth pdfl s.pool j) ∈ (flushFile f s).2.writes) ∧
    (∀ j, j < m → alook (f, (nth pdfl s.pool j).num) (flushFile f s).2.table = none) := by
  have h := flushGo_pinned_first f s.numBufs 0 s m (by omega) hWf.2.1 hu (Nat.zero_le m) hm
    (fun j _ h2 => hbefore j h2) hpin
  rcases h with ⟨r1, r2, r3, r4, r5⟩
  exact ⟨r1, fun j hj => r2 j (Nat.zero_le j) hj, r3,
    fun j hj => r4 j (Nat.zero_le j) hj, fun j hj => r5 j (Nat.zero_le j) hj⟩

/-- C6 witness: the spec's scenario on `sC6` — frame 0 caches page
(1,1) dirty and unpinned, frame 1 caches (1,2) still pinned.  The flush
fails with PagePinned; frame 0 is already cleared, its content already
written back, its page-table entry already gone; frame 1 is untouched. -/
theorem c6_witness :
    (flushFile 1 sC6).1 = .error .pagePinned ∧
    nth dfl (flushFile 1 sC6).2.descs 0 = clearDesc ∧
    (1, nth pdfl sC6.pool 0) ∈ (flushFile 1 sC6).2.writes ∧
    alook (1, (nth pdfl sC6.pool 0).num) (flushFile 1 sC6).2.table = none ∧
    nth dfl (flushFile 1 sC6).2.descs 1 = nth dfl sC6.descs 1 := by
  have h := c6_flush_fails_nonatomically sC6 1 1 (by decide) (by decide) (by decide)
    (by decide) (by decide)
  exact ⟨h.1, h.2.1 0 (by decide), h.2.2.2.1 0 (by decide) (by decide),
    h.2.2.2.2 0 (by decide), h.2.2.1 1 (Nat.le_refl 1)⟩

/-- C7: a successful `flushFile f` has iterated every frame of the pool
with no regard to ownership: every frame descriptor ends up cleared to
invalid; every dirty frame's content — also content owned by files
other than `f` — was written through `f`'s writePage (every write the
flush adds is tagged with `f`, never with the owning file); and the
page-table entries of other files' pages are not removed (removal is
keyed by `f` and its NotFound is swallowed), so they survive, now
pointing at invalid frames. -/
theorem c7_flush_ignores_file_ownership (s : State) (f : Nat)
    (hWf : Wf s) (hok : (flushFile f s).1 = .ok ()) :
    (∀ k, k < s.numBufs → nth dfl (flushFile f s).2.descs k = clearDesc) ∧
    (∀ k, k < s.numBufs → (nth dfl s.descs k).dirty = true →
      (f, nth pdfl s.pool k) ∈ (flushFile f s).2.writes) ∧
    (∀ x ∈ (flushFile f s).2.writes, x ∈ s.writes ∨ x.1 = f) ∧
    (∀ e ∈ s.table, e.1.1 ≠ f → e ∈ (flushFile f s).2.table) := by
  have h := flushGo_ok f s.numBufs 0 s hWf.2.1 (by omega) hok
  exact ⟨fun k hk => h.1 k (Nat.zero_le k) hk, fun k hk => h.2.1 k (Nat.zero_le k) hk,
    fun x hx => flushGo_writes_new f s.numBufs 0 s x hx, h.2.2.1⟩

/-- C7 witness: `sC7` caches page (2,1) of file 2, dirty and unpinned,
in its single frame.  `flushFile 1` succeeds, clears the frame, writes
the page's content through file 1 (not through its owning file 2), and
leaves the page-table entry ((2,1) ↦ 0) in place, pointing at the now
invalid frame. -/
theorem c7_witness :
    (flushFile 1 sC7).1 = .ok () ∧
    nth dfl (flushFile 1 sC7).2.descs 0 = clearDesc ∧
    (nth dfl sC7.descs 0).file = 2 ∧
    (1, nth pdfl sC7.pool 0) ∈ (flushFile 1 sC7).2.writes ∧
    (∀ x ∈ (flushFile 1 sC7).2.writes, x ∈ sC7.writes ∨ x.1 = 1) ∧
    ((2, 1), 0) ∈ (flushFile 1 sC7).2.table := by
  have h := c7_flush_ignores_file_ownership sC7 1 (by decide) (by decide)
  exact ⟨by decide, h.1 0 (by decide), by decide, h.2.1 0 (by decide) (by decide),
    h.2.2.1, h.2.2.2 ((2, 1), 0) (by decide) (by decide)⟩

/-- C10 (amended): during `flushFile`'s iteration an unpinned invalid
frame causes failure with BadBuffer when the iteration reaches it
(i.e. when every earlier frame is occupied and unpinned — a pinned
earlier frame fails with PagePinned first); consequently `flushFile`
succeeds only if every frame in the pool is occupied and unpinned, and
on a freshly constructed manager, whose first frame is already invalid
and unpinned, it fails with BadBuffer. -/
theorem c10_flush_badbuffer_conditions :
    (∀ (s : State) (f m : Nat), Wf s → m < s.numBufs →
      (∀ j, j < m → (nth dfl s.descs j).pinCnt = 0 ∧ (nth dfl s.descs j).valid = true) →
      (nth dfl s.descs m).pinCnt = 0 → (nth dfl s.descs m).valid = false →
      (flushFile f s).1 = .error .badBuffer) ∧
    (∀ (s : State) (f : Nat), Wf s → (flushFile f s).1 = .ok () →
      ∀ k, k < s.numBufs → (nth dfl s.descs k).pinCnt = 0 ∧ (nth dfl s.descs k).valid = true) ∧
    (∀ (f N : Nat) (d : List Entry), 0 < N → (flushFile f (init N d)).1 = .error .badBuffer) := by
  refine ⟨?_, ?_, ?_⟩
  · intro s f m hWf hm hbefore hmp hmv
    exact flushGo_badbuf f s.numBufs 0 s m (by omega) hWf.2.1 (Nat.zero_le m) hm
      (fun j _ h2 => hbefore j h2) hmp hmv
  · intro s f hWf hok
    exact fun k hk => (flushGo_ok f s.numBufs 0 s hWf.2.1 (by omega) hok).2.2.2 k (Nat.zero_le k) hk
  · intro f N d hN
    have h0 : nth dfl (init N d).descs 0 = clearDesc := by
      show nth dfl (List.replicate N clearDesc) 0 = clearDesc
      exact nth_replicate dfl clearDesc N 0 hN
    refine flushGo_badbuf f (init N d).numBufs 0 (init N d) 0 (by omega) ?_ (Nat.le_refl 0) hN
      (fun j _ h2 => absurd h2 (by omega)) ?_ ?_
    · show (List.replicate N clearDesc).length = N
      exact List.length_replicate N clearDesc
    · rw [h0]; rfl
    · rw [h0]; rfl

/-- C10 counterexample: the claim "flushFile on a pool containing any
invalid frame fails with BadBuffer" is false: `sC10` (frame 0 occupied
and pinned, frame 1 invalid and unpinned) contains an invalid frame,
yet `flushFile` fails with PagePinned, not BadBuffer — the pin check at
the earlier frame fires first. -/
theorem c10_counterexample :
    (nth dfl sC10.descs 1).valid = false ∧
    (nth dfl sC10.descs 1).pinCnt = 0 ∧
    (flushFile 1 sC10).1 = .error .pagePinned ∧
    (flushFile 1 sC10).1 ≠ .error .badBuffer := by
  decide

/-- C10 witness: the amended statement applied concretely — a freshly
constructed pool of 2 fails with BadBuffer at frame 0, and the
successful flush on `sC7` certifies that every frame there was occupied
and unpinned. -/
theorem c10_witness :
    (flushFile 1 (init 2 [])).1 = .error .badBuffer ∧
    (∀ k, k < sC7.numBufs → (nth dfl sC7.descs k).pinCnt = 0 ∧ (nth dfl sC7.descs k).valid = true) :=
  ⟨c10_flush_badbuffer_conditions.1 (init 2 []) 1 0 (by decide) (by decide)
     (fun j h1 => absurd h1 (by omega)) (by decide) (by decide),
   c10_flush_badbuffer_conditions.2.1 sC7 1 (by decide) (by decide)⟩
